import Mathlib

/-!
Verification of the gonum complex dense/diagonal matrix arithmetic engine
(`CDense.Add/Sub/Mul/Scale` and `DiagCDense`) against its specification.

The machine type `complex128` is modelled exactly by the Gaussian integers
`GaussianInt` (ℤ[i]): every concrete value appearing in the code, its tests
and the spec scenarios is a Gaussian integer, and every claim under study is
about structural/algebraic equality of results computed by one and the same
sequence of arithmetic operations, so the idealisation is faithful.

A matrix backing buffer (`[]complex128` in Go) is a `List GaussianInt`;
reads are `getD` with default 0 and writes are `List.set`, mirroring Go
slice indexing.  Go loops that write through a strided buffer are embedded
as `foldl` over `List.range`, preserving the traversal order of the source,
so that aliased reads see earlier writes exactly as in Go.
-/

/-- The scalar type of the engine: complex values, modelled exactly. -/
abbrev Cplx : Type := GaussianInt

namespace GonumC

/-- Read of `buf[i]` for a Go slice; out-of-range reads (which panic in Go)
return 0 — all theorems below constrain indices to stay in range. -/
def bufRead (buf : List Cplx) (i : Nat) : Cplx := buf.getD i 0

/-- One row of a strided write loop:
`for i := 0; i < cols; i++ { buf[off+i] = g i }`. -/
def rowFill (off cols : Nat) (g : Nat → Cplx) (buf : List Cplx) : List Cplx :=
  (List.range cols).foldl (fun b i => b.set (off + i) (g i)) buf

/-- The row-major strided write loop shared by the Go fast paths:
`for r rows { for c cols { buf[r*stride+c] = g r c } }`. -/
def fillLoop (rows cols stride : Nat) (g : Nat → Nat → Cplx) (buf : List Cplx) :
    List Cplx :=
  (List.range rows).foldl (fun b r => rowFill (r * stride) cols (g r) b) buf

/-!  ## Error model

Each constructor is one of the Go panic values raised by the engine
(`panic(ErrShape)` and friends); an operation that panics is embedded as an
`Except` returning the panic value, with the pre-panic state untouched,
which matches Go, where the checks precede any mutation of the receiver. -/

/-- The panic values of the engine: `ErrShape`, `ErrZeroLength`, the
negative-dimension panic of `NewDiagCDense`, and the row-access panic of
`SetDiag`. -/
inductive MatError where
  | ErrShape
  | ErrZeroLength
  | ErrNegativeDimension
  | ErrRowAccess
deriving DecidableEq

/-- The spec groups under InvalidDimension every failure caused by
requesting a non-positive size for a matrix that requires a fixed positive
size; in the code these surface as the `ErrZeroLength` panic (n = 0) and
the negative-dimension panic (n < 0). -/
def MatError.invalidDimension : MatError → Bool
  | .ErrZeroLength => true
  | .ErrNegativeDimension => true
  | _ => false

/-!  ## Dense matrices -/

/-- A dense complex matrix: the `cblas128.General`-backed `CDense`
(row-major strided storage). -/
structure CDense where
  rows : Nat
  cols : Nat
  stride : Nat
  data : List Cplx
deriving DecidableEq

/-- Modelled from the spec: reading one cell of the dense row-major strided
storage (`m.mat.Data[r*m.mat.Stride+c]`, the body of `CDense.At` after its
bounds checks, which all in-range accesses below satisfy). -/
def CDense.entry (d : CDense) (r c : Nat) : Cplx :=
  bufRead d.data (r * d.stride + c)

/-- Modelled from the spec: a dense matrix is empty when its stride is zero
(the dense analogue of `DiagCDense.IsEmpty` from the source, which inspects
only the increment). -/
def CDense.IsEmpty (d : CDense) : Bool := d.stride == 0

/-- The empty (zero-size, resizable) dense receiver, as left by `Reset`. -/
def emptyCDense : CDense := ⟨0, 0, 0, []⟩

/-- Well-formed dense storage: the stride covers a row and the buffer holds
all `rows` strided rows (gonum guarantees `len(Data) >= (rows-1)*stride+cols`;
we use the simpler `rows*stride` bound that constructed matrices satisfy). -/
def CDense.WF (d : CDense) : Prop :=
  d.cols ≤ d.stride ∧ d.rows * d.stride ≤ d.data.length

instance (d : CDense) : Decidable d.WF := by unfold CDense.WF; infer_instance

/-- Modelled from the spec: `reuseAsNonZeroed` for a dense receiver —
"dest resized to the result dimensions if empty"; a zero result dimension
panics `ErrZeroLength`, and a non-empty receiver of different dimensions
panics `ErrShape`, exactly as the in-source diagonal analogue
`DiagCDense.reuseAsNonZeroed` does.  The source leaves reused memory
non-zeroed; we model the fresh buffer as zero-filled, which is
unobservable to callers that overwrite it and explicit for those that do
not. -/
def CDense.reuseAsNonZeroed (m : CDense) (r c : Nat) : Except MatError CDense :=
  if r = 0 ∨ c = 0 then .error .ErrZeroLength
  else if m.IsEmpty then .ok ⟨r, c, c, List.replicate (r * c) 0⟩
  else if m.rows ≠ r ∨ m.cols ≠ c then .error .ErrShape
  else .ok m

/-!  ## Diagonal matrices (`cdiagonal.go`) -/

/-- The type `DiagCDense`: a diagonal matrix backed by a `cblas128.Vector`
(`N`, `Inc`, `Data`). -/
structure DiagCDense where
  n : Nat
  inc : Nat
  data : List Cplx
deriving DecidableEq

/-- Method `Diag` returns the dimension of the receiver. -/
def DiagCDense.Diag (d : DiagCDense) : Nat := d.n

/-- Method `Dims` of a diagonal matrix. -/
def DiagCDense.Dims (d : DiagCDense) : Nat × Nat := (d.n, d.n)

/-- Method `IsEmpty` inspects only the increment (source lines 173-177). -/
def DiagCDense.IsEmpty (d : DiagCDense) : Bool := d.inc == 0

/-- Method `Reset` clears increment, dimension and data together (source lines
97-103; `Data[:0]` is the empty buffer). -/
def DiagCDense.Reset (_ : DiagCDense) : DiagCDense := ⟨0, 0, []⟩

/-- Method `Zero` overwrites every diagonal entry through the increment
(source lines 106-110: `Data[Inc*i] = 0`). -/
def DiagCDense.Zero (d : DiagCDense) : DiagCDense :=
  let newData := (List.range d.n).foldl (fun b i => b.set (d.inc * i) 0) d.data
  { d with data := newData }

/-- Modelled from the spec: reading one cell (`at(r,c)`) of a diagonal
matrix — the stored strided vector on the diagonal, implicit zero off it
(the body of the library `At` after its bounds checks). -/
def DiagCDense.At (d : DiagCDense) (i j : Nat) : Cplx :=
  if i = j then bufRead d.data (i * d.inc) else 0

/-- Modelled from the spec: `set_diag(i, v)` writes the i-th diagonal entry
through the increment, panicking on an out-of-range index. -/
def DiagCDense.SetDiag (d : DiagCDense) (i : Nat) (v : Cplx) :
    Except MatError DiagCDense :=
  if d.n ≤ i then .error .ErrRowAccess
  else .ok { d with data := d.data.set (i * d.inc) v }

/-- Method `reuseAsNonZeroed` (source lines 153-168): resize an empty diagonal to
r×r, or check that a non-empty one is r×r.  As for the dense case, `useC`
leaves reused memory non-zeroed; the model zero-fills, which every caller
overwrites. -/
def DiagCDense.reuseAsNonZeroed (d : DiagCDense) (r : Nat) :
    Except MatError DiagCDense :=
  if r = 0 then .error .ErrZeroLength
  else if d.IsEmpty then .ok ⟨r, 1, List.replicate r 0⟩
  else if r ≠ d.n then .error .ErrShape
  else .ok d

/-- Constructor `NewDiagCDense(n, data)` (source lines 49-65).  `n` is a Go `int`, so
it ranges over ℤ; `data == nil` is `none`. -/
def NewDiagCDense (n : Int) (data : Option (List Cplx)) :
    Except MatError DiagCDense :=
  if n ≤ 0 then
    if n = 0 then .error .ErrZeroLength else .error .ErrNegativeDimension
  else
    let d := match data with
      | none => List.replicate n.toNat 0
      | some l => l
    if d.length ≠ n.toNat then .error .ErrShape
    else .ok ⟨n.toNat, 1, d⟩

/-!  ## Matrix operands

The `CMatrix` values the claims exercise: a plain dense matrix, the
lightweight transpose view `CTranspose` over a dense matrix (`DiagCDense.T`
returns the receiver itself, so a transposed diagonal is again `.diag`),
and a diagonal matrix.  The conjugate-transpose view exists in the source
but no claim mentions it. -/
inductive CMatrixV where
  | dense (d : CDense)
  | transD (d : CDense)
  | diag (g : DiagCDense)

/-- Dimensions of an operand; the transpose view swaps the dimensions. -/
def CMatrixV.Dims : CMatrixV → Nat × Nat
  | .dense d => (d.rows, d.cols)
  | .transD d => (d.cols, d.rows)
  | .diag g => (g.n, g.n)

/-- Modelled from the spec: generic `at(r,c)` dispatch; the transpose view
reads `underlying.at(c,r)`. -/
def CMatrixV.At : CMatrixV → Nat → Nat → Cplx
  | .dense d, r, c => d.entry r c
  | .transD d, r, c => d.entry c r
  | .diag g, r, c => g.At r c

/-- Modelled from the spec: `untransposeExtractCmplx` — strip the transpose
wrapper, returning the underlying concrete matrix and whether a transposition
flag is pending. -/
def CMatrixV.untrans : CMatrixV → (CDense ⊕ DiagCDense) × Bool
  | .dense d => (.inl d, false)
  | .transD d => (.inl d, true)
  | .diag g => (.inr g, false)

/-!  ## Arithmetic operations (`CDense.Add/Sub/Mul/Scale`)

The definitions below embed the source operations for calls whose
destination does not share storage with an operand (so `checkOverlap`
passes and the `m == aU`/`m == bU` workspace branches are not taken);
the self-aliased calls the claims exercise — `Sub(a, a, b)` and
`a.Scale(k, a)` — are embedded separately below with the sharing explicit. -/

/-- Method `CDense.Add` (part_001 lines 8-53) for a non-aliased destination.
The operand shape check precedes every mutation; the fast strided loop runs
exactly when both original operands are `*CDense`; otherwise the generic
`At`/`set` loop runs.  Both loops write cell (r,c) of the destination at
buffer index `r*stride+c`, reading only the operands, which is `fillLoop`. -/
def CDense.Add (m : CDense) (a b : CMatrixV) : Except MatError CDense :=
  let ar := a.Dims.1
  let ac := a.Dims.2
  if ar ≠ b.Dims.1 ∨ ac ≠ b.Dims.2 then .error .ErrShape
  else
    match m.reuseAsNonZeroed ar ac with
    | .error e => .error e
    | .ok m' =>
      match a, b with
      | .dense ad, .dense bd =>
          let newData := fillLoop ar ac m'.stride
            (fun r c => bufRead ad.data (r * ad.stride + c)
              + bufRead bd.data (r * bd.stride + c)) m'.data
          .ok { m' with data := newData }
      | a, b =>
          let newData := fillLoop ar ac m'.stride
            (fun r c => a.At r c + b.At r c) m'.data
          .ok { m' with data := newData }

/-- Method `CDense.Sub` (part_001 lines 55-100) for a non-aliased destination:
identical structure to `Add`, with subtraction. -/
def CDense.Sub (m : CDense) (a b : CMatrixV) : Except MatError CDense :=
  let ar := a.Dims.1
  let ac := a.Dims.2
  if ar ≠ b.Dims.1 ∨ ac ≠ b.Dims.2 then .error .ErrShape
  else
    match m.reuseAsNonZeroed ar ac with
    | .error e => .error e
    | .ok m' =>
      match a, b with
      | .dense ad, .dense bd =>
          let newData := fillLoop ar ac m'.stride
            (fun r c => bufRead ad.data (r * ad.stride + c)
              - bufRead bd.data (r * bd.stride + c)) m'.data
          .ok { m' with data := newData }
      | a, b =>
          let newData := fillLoop ar ac m'.stride
            (fun r c => a.At r c - b.At r c) m'.data
          .ok { m' with data := newData }

/-- The fast-path loop of `Sub` for the self-aliased call `Sub(a, a, b)`
(part_001 lines 75-79 with `m == a`): destination and first operand are one
shared buffer, so the read of `a` at each cell comes from the evolving
buffer; as in Go, the cell is read before it is written and no other cell
of the shared buffer is touched in between. -/
def selfSubLoop (rows cols stride bStride : Nat) (bData buf : List Cplx) :
    List Cplx :=
  (List.range rows).foldl (fun b r =>
    (List.range cols).foldl (fun bb i =>
      bb.set (r * stride + i)
        (bufRead bb (r * stride + i) - bufRead bData (r * bStride + i))) b) buf

/-- The self-aliased call `Sub(a, a, b)` with `a`, `b` both `*CDense` and
`b` disjoint from `a` (part_001 lines 55-81): shape check, `reuseAsNonZeroed`
(a non-empty receiver of its own dimensions), then the fast loop on the
shared buffer; `m != aU` is false so no overlap check or workspace for `a`. -/
def CDense.SubSelf (a b : CDense) : Except MatError CDense :=
  if a.rows ≠ b.rows ∨ a.cols ≠ b.cols then .error .ErrShape
  else
    match a.reuseAsNonZeroed a.rows a.cols with
    | .error e => .error e
    | .ok m' =>
        let newData := selfSubLoop a.rows a.cols m'.stride b.stride b.data m'.data
        .ok { m' with data := newData }

/-- Modelled from the spec: the kernel `gemm(transA, transB, alpha, A, B,
beta, C)` with the standard semantics `C := alpha*op(A)*op(B) + beta*C`;
each destination cell is read (for the `beta` term) before it is written,
and the transposition flags redirect index order without materializing. -/
def Gemm (tA tB : Bool) (alpha : Cplx) (A B : CDense) (beta : Cplx)
    (C : CDense) : CDense :=
  let K := if tA then A.rows else A.cols
  let newData := fillLoop C.rows C.cols C.stride
    (fun i j => alpha *
        ((List.range K).map (fun k =>
          (if tA then A.entry k i else A.entry i k) *
          (if tB then B.entry j k else B.entry k j))).sum
      + beta * C.entry i j) C.data
  { C with data := newData }

/-- Method `CDense.Mul` (part_001 lines 102-148) for a non-aliased destination:
inner-dimension check, untranspose, `reuseAsNonZeroed` to (ar, bc); when
both untransposed operands are `*CDense`, dispatch to the kernel
`Gemm(aT, bT, 1, aU, bU, 0, m)`; otherwise the switch has no case and the
function returns with the destination as `reuseAsNonZeroed` left it. -/
def CDense.Mul (m : CDense) (a b : CMatrixV) : Except MatError CDense :=
  let ar := a.Dims.1
  let bc := b.Dims.2
  if a.Dims.2 ≠ b.Dims.1 then .error .ErrShape
  else
    match m.reuseAsNonZeroed ar bc with
    | .error e => .error e
    | .ok m' =>
      match a.untrans.1, b.untrans.1 with
      | .inl ad, .inl bd => .ok (Gemm a.untrans.2 b.untrans.2 1 ad bd 0 m')
      | _, _ => .ok m'

/-- The column-major strided write loop of the transposed `Scale` fast path
(part_001 lines 170-174): outer loop walks the `ac` rows of the underlying
matrix, inner loop writes `buf[i*stride+j]`. -/
def colFillLoop (ar ac stride : Nat) (g : Nat → Nat → Cplx)
    (buf : List Cplx) : List Cplx :=
  (List.range ac).foldl (fun b j =>
    (List.range ar).foldl (fun bb i => bb.set (i * stride + j) (g i j)) b) buf

/-- Method `CDense.Scale` (part_001 lines 150-185) for a destination that shares
no storage with the operand (`m == aU` and `checkOverlap` both false, so no
workspace): `reuseAsNonZeroed` to the operand dimensions, then the strided
fast loop when the untransposed operand is `*CDense` (row-major traversal
untransposed, column-major writes for a transposed view), else the generic
`At`/`set` loop. -/
def CDense.Scale (m : CDense) (f : Cplx) (a : CMatrixV) :
    Except MatError CDense :=
  let ar := a.Dims.1
  let ac := a.Dims.2
  match m.reuseAsNonZeroed ar ac with
  | .error e => .error e
  | .ok m' =>
    match a.untrans with
    | (.inl ad, false) =>
        let newData := fillLoop ar ac m'.stride
          (fun r c => bufRead ad.data (r * ad.stride + c) * f) m'.data
        .ok { m' with data := newData }
    | (.inl ad, true) =>
        let newData := colFillLoop ar ac m'.stride
          (fun i j => bufRead ad.data (j * ad.stride + i) * f) m'.data
        .ok { m' with data := newData }
    | (.inr _, _) =>
        let newData := fillLoop ar ac m'.stride
          (fun r c => f * a.At r c) m'.data
        .ok { m' with data := newData }

/-- Modelled from the spec: `m.Copy(src)` / `a.copy_from(tmp)` — copy the
overlapping `min` dimensions of `src` into the receiver cell by cell,
leaving the receiver's shape and stride unchanged. -/
def CDense.copyFrom (m src : CDense) : CDense :=
  let r := min m.rows src.rows
  let c := min m.cols src.cols
  let newData := fillLoop r c m.stride (fun i j => src.entry i j) m.data
  { m with data := newData }

/-- Modelled from the spec: `isolatedWorkspace` — a freshly allocated dense
workspace of the given dimensions (standard stride, zero-filled fresh
buffer), used when the destination aliases an operand; the computation
writes the workspace, which is then copied back into the true destination. -/
def freshWorkspace (r c : Nat) : CDense :=
  ⟨r, c, c, List.replicate (r * c) 0⟩

/-- The self-aliased call `a.Scale(f, a)` (part_001 lines 150-177 with
`m == aU`, `aTrans` false): `reuseAsNonZeroed` on the receiver's own
dimensions, then — because `m == aU` — the fast loop writes an isolated
workspace while reading the untouched operand, and the deferred `restore`
copies the workspace back into the receiver. -/
def CDense.ScaleSelf (a : CDense) (f : Cplx) : Except MatError CDense :=
  match a.reuseAsNonZeroed a.rows a.cols with
  | .error e => .error e
  | .ok m' =>
      let w := freshWorkspace m'.rows m'.cols
      let wData := fillLoop m'.rows m'.cols w.stride
        (fun r c => bufRead m'.data (r * m'.stride + c) * f) w.data
      .ok (m'.copyFrom { w with data := wData })

/-- Method `DiagCDense.DiagFrom` (cdiagonal.go lines 119-134): extract the
`min(rows, cols)` diagonal entries of `m` into the receiver.  A diagonal
source is copied by the kernel `cblas128.Copy` (a strided vector copy,
modelled from the spec's `strided_copy`); any other source loops
`setDiag(i, m.At(i, i))`, whose bound check `i < n` always passes.  Both
paths write the receiver cells `i*Inc` for `i < n` in increasing order,
encoded as the one-column strided loop `fillLoop n 1 Inc`. -/
def DiagCDense.DiagFrom (d : DiagCDense) (m : CMatrixV) :
    Except MatError DiagCDense :=
  let n := min m.Dims.1 m.Dims.2
  match d.reuseAsNonZeroed n with
  | .error e => .error e
  | .ok d' =>
    match m with
    | .diag src =>
        let newData := fillLoop n 1 d'.inc
          (fun i _ => bufRead src.data (i * src.inc)) d'.data
        .ok { d' with data := newData }
    | m =>
        let newData := fillLoop n 1 d'.inc (fun i _ => m.At i i) d'.data
        .ok { d' with data := newData }

/-- Method `Dims` of a dense matrix. -/
def CDense.Dims (d : CDense) : Nat × Nat := (d.rows, d.cols)

/-- The spec's comparison object for the transpose-without-materialization
property: a freshly allocated dense matrix (standard stride, fresh buffer)
holding the explicitly materialized transpose of `a`. -/
def CDense.materializeT (a : CDense) : CDense :=
  ⟨a.cols, a.rows, a.rows,
    fillLoop a.cols a.rows a.rows (fun i j => a.entry j i)
      (List.replicate (a.cols * a.rows) 0)⟩

/-!  ## Sequences of diagonal operations

For the empty-state invariant we close the `DiagCDense` mutators under
sequencing.  A call that panics leaves the receiver exactly as it was when
the panic fired; in the source every check precedes any mutation, so the
receiver is unchanged. -/

/-- One mutating `DiagCDense` operation. -/
inductive DiagOp where
  | reset
  | zero
  | setDiag (i : Nat) (v : Cplx)
  | reuseAs (r : Nat)
  | diagFrom (m : CMatrixV)

/-- Apply one operation; on a panic the receiver is unchanged. -/
def DiagCDense.applyOp (d : DiagCDense) : DiagOp → DiagCDense
  | .reset => d.Reset
  | .zero => d.Zero
  | .setDiag i v =>
      match d.SetDiag i v with
      | .ok d' => d'
      | .error _ => d
  | .reuseAs r =>
      match d.reuseAsNonZeroed r with
      | .ok d' => d'
      | .error _ => d
  | .diagFrom m =>
      match d.DiagFrom m with
      | .ok d' => d'
      | .error _ => d

/-- Run a sequence of diagonal operations. -/
def DiagCDense.runOps (d : DiagCDense) (ops : List DiagOp) : DiagCDense :=
  ops.foldl DiagCDense.applyOp d

/-- The empty-state invariant of `DiagCDense`: the dimension is zero exactly
when the increment is zero (comment in `Reset`, source lines 97-103). -/
def DiagCDense.EmptyInv (d : DiagCDense) : Prop := d.n = 0 ↔ d.inc = 0

instance (d : DiagCDense) : Decidable d.EmptyInv := by
  unfold DiagCDense.EmptyInv; infer_instance

/-!  ## Concrete fixtures (the matrices of the example tests) -/

/-- `a = [[1+1i, 0],[1, 2i]]` from the Add/Sub example tests. -/
def exA : CDense := ⟨2, 2, 2, [⟨1, 1⟩, ⟨0, 0⟩, ⟨1, 0⟩, ⟨0, 2⟩]⟩

/-- `b = [[0, 1i],[0, 3+2i]]` from the Add/Sub example tests. -/
def exB : CDense := ⟨2, 2, 2, [⟨0, 0⟩, ⟨0, 1⟩, ⟨0, 0⟩, ⟨3, 2⟩]⟩

/-!  ## Shared helper lemmas -/

theorem rowFill_succ (off n : Nat) (g : Nat → Cplx) (buf : List Cplx) :
    rowFill off (n + 1) g buf = (rowFill off n g buf).set (off + n) (g n) := by
  rw [rowFill, List.range_succ, List.foldl_append]; rfl

theorem fillLoop_succ (n cols stride : Nat) (g : Nat → Nat → Cplx)
    (buf : List Cplx) :
    fillLoop (n + 1) cols stride g buf
      = rowFill (n * stride) cols (g n) (fillLoop n cols stride g buf) := by
  rw [fillLoop, List.range_succ, List.foldl_append]; rfl

theorem rowFill_length (off cols : Nat) (g : Nat → Cplx) (buf : List Cplx) :
    (rowFill off cols g buf).length = buf.length := by
  induction cols generalizing buf with
  | zero => rfl
  | succ n ih =>
      rw [rowFill_succ, List.length_set]
      exact ih buf

theorem fillLoop_length (rows cols stride : Nat) (g : Nat → Nat → Cplx)
    (buf : List Cplx) : (fillLoop rows cols stride g buf).length = buf.length := by
  induction rows generalizing buf with
  | zero => rfl
  | succ n ih =>
      rw [fillLoop_succ, rowFill_length]
      exact ih buf

theorem getD_set_self (l : List Cplx) (i : Nat) (v : Cplx) (h : i < l.length) :
    (l.set i v).getD i 0 = v := by
  simp [List.getD_eq_getElem?_getD, List.getElem?_set_self' , h,
    List.getElem?_eq_getElem]

theorem getD_set_ne (l : List Cplx) (i j : Nat) (v : Cplx) (h : i ≠ j) :
    (l.set i v).getD j 0 = l.getD j 0 := by
  simp [List.getD_eq_getElem?_getD, List.getElem?_set_ne h]

/-- Reading inside a freshly written row yields the written value. -/
theorem rowFill_getD_hit (off cols : Nat) (g : Nat → Cplx) (buf : List Cplx)
    (c : Nat) (hc : c < cols) (hlen : off + c < buf.length) :
    (rowFill off cols g buf).getD (off + c) 0 = g c := by
  induction cols generalizing buf with
  | zero => omega
  | succ n ih =>
      rw [rowFill_succ]
      rcases Nat.lt_or_ge c n with h | h
      · rw [getD_set_ne _ _ _ _ (by omega)]
        exact ih buf h hlen
      · have hcn : c = n := by omega
        subst hcn
        exact getD_set_self _ _ _ (by rw [rowFill_length]; exact hlen)

/-- Reading outside the written window of a row is unchanged. -/
theorem rowFill_getD_miss (off cols : Nat) (g : Nat → Cplx) (buf : List Cplx)
    (j : Nat) (hj : j < off ∨ off + cols ≤ j) :
    (rowFill off cols g buf).getD j 0 = buf.getD j 0 := by
  induction cols generalizing buf with
  | zero => rfl
  | succ n ih =>
      rw [rowFill_succ, getD_set_ne _ _ _ _ (by omega)]
      exact ih buf (by omega)

/-- The central lemma: after the strided row-major write loop, the cell
`(r, c)` holds `g r c`, provided `cols ≤ stride` (rows do not overlap) and
the write landed inside the buffer. -/
theorem fillLoop_getD (rows cols stride : Nat) (g : Nat → Nat → Cplx)
    (buf : List Cplx) (hcs : cols ≤ stride) (r c : Nat) (hr : r < rows)
    (hc : c < cols) (hlen : r * stride + c < buf.length) :
    (fillLoop rows cols stride g buf).getD (r * stride + c) 0 = g r c := by
  induction rows generalizing buf with
  | zero => omega
  | succ n ih =>
      rw [fillLoop_succ]
      rcases Nat.lt_or_ge r n with h | h
      · rw [rowFill_getD_miss]
        · exact ih buf h hlen
        · left
          have : (r + 1) * stride ≤ n * stride := Nat.mul_le_mul_right _ (by omega)
          have : r * stride + stride ≤ n * stride := by
            simpa [Nat.succ_mul] using this
          omega
      · have hrn : r = n := by omega
        subst hrn
        exact rowFill_getD_hit _ _ _ _ c hc (by rw [fillLoop_length]; exact hlen)

/-- The write loop only depends on the pointwise values of `g` at written
cells. -/
theorem fillLoop_congr (rows cols stride : Nat) (g₁ g₂ : Nat → Nat → Cplx)
    (buf : List Cplx)
    (h : ∀ r c, r < rows → c < cols → g₁ r c = g₂ r c) :
    fillLoop rows cols stride g₁ buf = fillLoop rows cols stride g₂ buf := by
  induction rows generalizing buf with
  | zero => rfl
  | succ n ih =>
      rw [fillLoop_succ, fillLoop_succ, ih buf (fun r c hr hc => h r c (by omega) hc)]
      have hrow : ∀ (b : List Cplx) (m : Nat), m ≤ cols →
          rowFill (n * stride) m (g₁ n) b = rowFill (n * stride) m (g₂ n) b := by
        intro b m
        induction m with
        | zero => intro _; rfl
        | succ k ihk =>
            intro hk
            rw [rowFill_succ, rowFill_succ, ihk (by omega), h n k (by omega) (by omega)]
      exact hrow _ cols (le_refl _)

theorem strided_idx_lt (r c rows stride : Nat) (hr : r < rows)
    (hc : c < stride) : r * stride + c < rows * stride := by
  have h1 : r * stride + c < (r + 1) * stride := by
    rw [Nat.succ_mul]; omega
  have h2 : (r + 1) * stride ≤ rows * stride := Nat.mul_le_mul_right _ (by omega)
  omega

/-- Unfolding of `Add` under a passing shape check: the result is the
reused destination with every cell overwritten by the sum of the operand
cells; on the fast path the strided reads are definitionally the dense
`At`, so both paths take this form. -/
theorem Add_eq (m m' : CDense) (a b : CMatrixV)
    (h1 : a.Dims.1 = b.Dims.1) (h2 : a.Dims.2 = b.Dims.2)
    (hok : m.reuseAsNonZeroed a.Dims.1 a.Dims.2 = .ok m') :
    m.Add a b = .ok ⟨m'.rows, m'.cols, m'.stride,
      fillLoop a.Dims.1 a.Dims.2 m'.stride
        (fun r c => a.At r c + b.At r c) m'.data⟩ := by
  have hif : ¬(a.Dims.1 ≠ b.Dims.1 ∨ a.Dims.2 ≠ b.Dims.2) := by
    push_neg
    exact ⟨h1, h2⟩
  cases a <;> cases b
  all_goals simp only [CDense.Add, hif, if_false, hok]
  all_goals try rfl

/-- On a passing shape check, `reuseAsNonZeroed` succeeds for a destination
that is empty or of matching shape, and the reused destination has the
requested shape, a row-covering stride, and a buffer covering all rows. -/
theorem reuse_ok (m : CDense) (r c : Nat) (hr : 0 < r) (hc : 0 < c)
    (hm : m.IsEmpty = true ∨ (m.rows = r ∧ m.cols = c ∧ m.WF)) :
    ∃ m', m.reuseAsNonZeroed r c = .ok m' ∧ m'.rows = r ∧ m'.cols = c
      ∧ m'.cols ≤ m'.stride ∧ r * m'.stride ≤ m'.data.length
      ∧ (m.IsEmpty = false → m' = m)
      ∧ (m.IsEmpty = true → m' = ⟨r, c, c, List.replicate (r * c) 0⟩) := by
  rcases hm with hm | ⟨hrw, hcl, hwf1, hwf2⟩
  · refine ⟨⟨r, c, c, List.replicate (r * c) 0⟩, ?_, rfl, rfl, le_refl _, ?_,
      ?_, fun _ => rfl⟩
    · rw [CDense.reuseAsNonZeroed, if_neg (by omega), if_pos hm]
    · simp
    · intro hfalse
      rw [hm] at hfalse
      cases hfalse
  · have hs : 0 < m.stride := by omega
    have hne : m.IsEmpty = false := by
      simp only [CDense.IsEmpty, beq_eq_false_iff_ne, ne_eq]
      omega
    refine ⟨m, ?_, hrw, hcl, by omega, ?_, fun _ => rfl, ?_⟩
    · rw [CDense.reuseAsNonZeroed, if_neg (by omega), hne]
      simp only [Bool.false_eq_true, if_false]
      rw [if_neg (by omega)]
    · rw [← hrw]
      exact hwf2
    · intro htrue
      rw [hne] at htrue
      cases htrue

/-- Characterization of a successful `Add` on a non-aliased destination that
is empty or already of the result shape: it succeeds, keeps the result
shape, and every in-range destination cell holds the sum of the operand
cells, on both the fast and the generic path. -/
theorem Add_ok_entry (m : CDense) (a b : CMatrixV)
    (h1 : a.Dims.1 = b.Dims.1) (h2 : a.Dims.2 = b.Dims.2)
    (hr : 0 < a.Dims.1) (hc : 0 < a.Dims.2)
    (hm : m.IsEmpty = true ∨ (m.rows = a.Dims.1 ∧ m.cols = a.Dims.2 ∧ m.WF)) :
    ∃ d, m.Add a b = .ok d ∧ d.rows = a.Dims.1 ∧ d.cols = a.Dims.2 ∧
      ∀ r c, r < a.Dims.1 → c < a.Dims.2 → d.entry r c = a.At r c + b.At r c := by
  obtain ⟨m', hok, hmr, hmc, hms, hml, -, -⟩ :=
    reuse_ok m a.Dims.1 a.Dims.2 hr hc hm
  refine ⟨_, Add_eq m m' a b h1 h2 hok, hmr, hmc, ?_⟩
  intro r c hra hca
  simp only [CDense.entry, bufRead]
  rw [fillLoop_getD _ _ _ _ _ (by omega) r c hra hca
    (by exact lt_of_lt_of_le (strided_idx_lt r c _ _ hra (by omega)) hml)]

/-- When `reuseAsNonZeroed` panics `ErrShape`: exactly for a non-empty
receiver of the wrong shape (and non-zero requested dimensions, which panic
`ErrZeroLength` first). -/
theorem reuse_error_shape_iff (m : CDense) (r c : Nat) :
    m.reuseAsNonZeroed r c = .error .ErrShape ↔
      ¬(r = 0 ∨ c = 0) ∧ m.IsEmpty = false ∧ (m.rows ≠ r ∨ m.cols ≠ c) := by
  rw [CDense.reuseAsNonZeroed]
  split_ifs with hz he hs <;> simp_all

/-- Under a passing operand-shape check, `Add` panics `ErrShape` exactly
when `reuseAsNonZeroed` does (the computation paths always return). -/
theorem Add_error_eq_reuse (m : CDense) (a b : CMatrixV)
    (h1 : a.Dims.1 = b.Dims.1) (h2 : a.Dims.2 = b.Dims.2) :
    (m.Add a b = .error .ErrShape)
      ↔ m.reuseAsNonZeroed a.Dims.1 a.Dims.2 = .error .ErrShape := by
  have hif : ¬(a.Dims.1 ≠ b.Dims.1 ∨ a.Dims.2 ≠ b.Dims.2) := by
    push_neg
    exact ⟨h1, h2⟩
  cases hok : m.reuseAsNonZeroed a.Dims.1 a.Dims.2 with
  | error e => cases a <;> cases b <;> simp [CDense.Add, hif, hok]
  | ok m' => cases a <;> cases b <;> simp [CDense.Add, hif, hok]

/-- Same for `Sub`, whose structure is identical. -/
theorem Sub_error_eq_reuse (m : CDense) (a b : CMatrixV)
    (h1 : a.Dims.1 = b.Dims.1) (h2 : a.Dims.2 = b.Dims.2) :
    (m.Sub a b = .error .ErrShape)
      ↔ m.reuseAsNonZeroed a.Dims.1 a.Dims.2 = .error .ErrShape := by
  have hif : ¬(a.Dims.1 ≠ b.Dims.1 ∨ a.Dims.2 ≠ b.Dims.2) := by
    push_neg
    exact ⟨h1, h2⟩
  cases hok : m.reuseAsNonZeroed a.Dims.1 a.Dims.2 with
  | error e => cases a <;> cases b <;> simp [CDense.Sub, hif, hok]
  | ok m' => cases a <;> cases b <;> simp [CDense.Sub, hif, hok]

/-- Under a passing inner-dimension check, `Mul` panics `ErrShape` exactly
when `reuseAsNonZeroed` does. -/
theorem Mul_error_eq_reuse (m : CDense) (a b : CMatrixV)
    (hk : a.Dims.2 = b.Dims.1) :
    (m.Mul a b = .error .ErrShape)
      ↔ m.reuseAsNonZeroed a.Dims.1 b.Dims.2 = .error .ErrShape := by
  cases hok : m.reuseAsNonZeroed a.Dims.1 b.Dims.2 with
  | error e =>
      cases a <;> cases b <;> simp [CDense.Mul, CMatrixV.untrans, hk, hok]
  | ok m' =>
      cases a <;> cases b <;> simp [CDense.Mul, CMatrixV.untrans, hk, hok]

/-!  ## The claims -/

/-- C2 (corrected): `Add`, `Sub` and `Mul` panic `ErrShape` exactly when
the operands' dimensions are incompatible (equal dimensions for Add/Sub,
inner dimensions equal for Mul) OR when the destination is non-empty with
dimensions different from the result's (with non-zero result dimensions,
which panic `ErrZeroLength` first); the shape check precedes any
modification of the destination.  The claim's "exactly when the operands'
dimensions differ" misses the non-empty mismatched destination case,
refuted by `C2_counterexample`. -/
theorem C2_shape_mismatch_amended (m : CDense) (a b : CMatrixV) :
    ((m.Add a b = .error .ErrShape) ↔
      ((a.Dims.1 ≠ b.Dims.1 ∨ a.Dims.2 ≠ b.Dims.2)
        ∨ (¬(a.Dims.1 = 0 ∨ a.Dims.2 = 0) ∧ m.IsEmpty = false
            ∧ (m.rows ≠ a.Dims.1 ∨ m.cols ≠ a.Dims.2))))
    ∧ ((m.Sub a b = .error .ErrShape) ↔
      ((a.Dims.1 ≠ b.Dims.1 ∨ a.Dims.2 ≠ b.Dims.2)
        ∨ (¬(a.Dims.1 = 0 ∨ a.Dims.2 = 0) ∧ m.IsEmpty = false
            ∧ (m.rows ≠ a.Dims.1 ∨ m.cols ≠ a.Dims.2))))
    ∧ ((m.Mul a b = .error .ErrShape) ↔
      (a.Dims.2 ≠ b.Dims.1
        ∨ (¬(a.Dims.1 = 0 ∨ b.Dims.2 = 0) ∧ m.IsEmpty = false
            ∧ (m.rows ≠ a.Dims.1 ∨ m.cols ≠ b.Dims.2)))) := by
  refine ⟨?_, ?_, ?_⟩
  · by_cases hd : a.Dims.1 ≠ b.Dims.1 ∨ a.Dims.2 ≠ b.Dims.2
    · have : m.Add a b = .error .ErrShape := by
        cases a <;> cases b <;> simp_all [CDense.Add]
      simp [this, hd]
    · push_neg at hd
      rw [Add_error_eq_reuse m a b hd.1 hd.2, reuse_error_shape_iff]
      constructor
      · intro h
        exact Or.inr h
      · intro h
        rcases h with h | h
        · exact absurd h (by omega)
        · exact h
  · by_cases hd : a.Dims.1 ≠ b.Dims.1 ∨ a.Dims.2 ≠ b.Dims.2
    · have : m.Sub a b = .error .ErrShape := by
        cases a <;> cases b <;> simp_all [CDense.Sub]
      simp [this, hd]
    · push_neg at hd
      rw [Sub_error_eq_reuse m a b hd.1 hd.2, reuse_error_shape_iff]
      constructor
      · intro h
        exact Or.inr h
      · intro h
        rcases h with h | h
        · exact absurd h (by omega)
        · exact h
  · by_cases hk : a.Dims.2 = b.Dims.1
    · rw [Mul_error_eq_reuse m a b hk, reuse_error_shape_iff]
      constructor
      · intro h
        exact Or.inr h
      · intro h
        rcases h with h | h
        · exact absurd h (by omega)
        · exact h
    · have : m.Mul a b = .error .ErrShape := by
        cases a <;> cases b <;> simp_all [CDense.Mul]
      simp [this, hk]

/-- C2 counterexample: the destination [[0]] is non-empty and 1×1, the two
operands are 2×2 (equal dimensions), yet `Add` panics `ErrShape` — so
ShapeMismatch does not arise exactly when the operands' dimensions
differ. -/
theorem C2_counterexample :
    (CMatrixV.dense exA).Dims = (CMatrixV.dense exB).Dims
    ∧ CDense.Add ⟨1, 1, 1, [0]⟩ (.dense exA) (.dense exB)
        = .error .ErrShape := by
  exact ⟨rfl, rfl⟩

/-- C3: for `a = [[1+1i, 0],[1, 2i]]` and `b = [[0, 1i],[0, 3+2i]]`, the
self-aliased call `Sub(a, a, b)` — destination and first operand one and
the same object — leaves `a = [[1+1i, -1i],[1, -3]]`. -/
theorem C3_sub_self_aliased_concrete :
    exA.SubSelf exB = .ok ⟨2, 2, 2, [⟨1, 1⟩, ⟨0, -1⟩, ⟨1, 0⟩, ⟨-3, 0⟩]⟩ := by
  rfl

/-- C5: `Add(c1, a, b)` and `Add(c2, b, a)` produce identical entries at
every in-range position, for any equal-dimension operands and any
non-aliased destinations that are empty or of the result shape. -/
theorem C5_add_commutes (c1 c2 : CDense) (a b : CMatrixV)
    (h1 : a.Dims.1 = b.Dims.1) (h2 : a.Dims.2 = b.Dims.2)
    (hr : 0 < a.Dims.1) (hc : 0 < a.Dims.2)
    (hc1 : c1.IsEmpty = true ∨ (c1.rows = a.Dims.1 ∧ c1.cols = a.Dims.2 ∧ c1.WF))
    (hc2 : c2.IsEmpty = true ∨ (c2.rows = b.Dims.1 ∧ c2.cols = b.Dims.2 ∧ c2.WF)) :
    ∃ d1 d2, c1.Add a b = .ok d1 ∧ c2.Add b a = .ok d2 ∧
      ∀ r c, r < a.Dims.1 → c < a.Dims.2 → d1.entry r c = d2.entry r c := by
  obtain ⟨d1, he1, _, _, hent1⟩ := Add_ok_entry c1 a b h1 h2 hr hc hc1
  obtain ⟨d2, he2, _, _, hent2⟩ :=
    Add_ok_entry c2 b a h1.symm h2.symm (h1 ▸ hr) (h2 ▸ hc) hc2
  refine ⟨d1, d2, he1, he2, ?_⟩
  intro r c hra hca
  rw [hent1 r c hra hca, hent2 r c (h1 ▸ hra) (h2 ▸ hca), add_comm]

/-- C5 witness at the example matrices with two fresh empty
destinations. -/
theorem C5_add_commutes_witness :
    ∃ d1 d2, emptyCDense.Add (.dense exA) (.dense exB) = .ok d1 ∧
      emptyCDense.Add (.dense exB) (.dense exA) = .ok d2 ∧
      ∀ r c, r < (CMatrixV.dense exA).Dims.1 →
        c < (CMatrixV.dense exA).Dims.2 → d1.entry r c = d2.entry r c :=
  C5_add_commutes emptyCDense emptyCDense (.dense exA) (.dense exB)
    rfl rfl (by decide) (by decide) (Or.inl rfl) (Or.inl rfl)

/-- C6: with an empty destination and equal-dimension (non-zero-size)
operands, `Add` succeeds without any prior resize call, and afterwards the
destination's dimensions equal both operands'. -/
theorem C6_empty_dest_auto_resize (a b : CMatrixV)
    (h1 : a.Dims.1 = b.Dims.1) (h2 : a.Dims.2 = b.Dims.2)
    (hr : 0 < a.Dims.1) (hc : 0 < a.Dims.2) :
    ∃ d, emptyCDense.Add a b = .ok d ∧ d.Dims = a.Dims ∧ d.Dims = b.Dims := by
  obtain ⟨d, he, hrw, hcl, _⟩ :=
    Add_ok_entry emptyCDense a b h1 h2 hr hc (Or.inl rfl)
  refine ⟨d, he, ?_, ?_⟩
  · rw [CDense.Dims, hrw, hcl]
  · rw [CDense.Dims, hrw, hcl, h1, h2]

/-- C6 witness: the Add example test — empty destination, the two 2×2
example matrices. -/
theorem C6_empty_dest_auto_resize_witness :
    ∃ d, emptyCDense.Add (.dense exA) (.dense exB) = .ok d
      ∧ d.Dims = (CMatrixV.dense exA).Dims
      ∧ d.Dims = (CMatrixV.dense exB).Dims :=
  C6_empty_dest_auto_resize (.dense exA) (.dense exB) rfl rfl
    (by decide) (by decide)

/-- C8: `NewDiagCDense(n, data)` fails with an InvalidDimension-class panic
for every n ≤ 0; fails with `ErrShape` when data is non-empty of length
different from n; and with absent (nil) data allocates a zero-filled vector
of length n. -/
theorem C8_newDiagCDense_validation :
    (∀ (n : Int) (data : Option (List Cplx)), n ≤ 0 →
        ∃ e, NewDiagCDense n data = .error e ∧ e.invalidDimension = true)
    ∧ (∀ (n : Int) (l : List Cplx), 0 < n → l ≠ [] → l.length ≠ n.toNat →
        NewDiagCDense n (some l) = .error .ErrShape)
    ∧ (∀ n : Int, 0 < n →
        NewDiagCDense n none = .ok ⟨n.toNat, 1, List.replicate n.toNat 0⟩) := by
  refine ⟨?_, ?_, ?_⟩
  · intro n data hn
    by_cases h0 : n = 0
    · exact ⟨.ErrZeroLength, by rw [NewDiagCDense.eq_def, if_pos hn, if_pos h0], rfl⟩
    · exact ⟨.ErrNegativeDimension,
        by rw [NewDiagCDense.eq_def, if_pos hn, if_neg h0], rfl⟩
  · intro n l hn _hne hlen
    rw [NewDiagCDense.eq_def, if_neg (by omega)]
    exact if_pos hlen
  · intro n hn
    rw [NewDiagCDense.eq_def, if_neg (by omega)]
    exact if_neg (by simp)

/-- C8 witness: n = -2 and n = 0 fail as InvalidDimension, a length-1 data
slice for n = 3 fails as ShapeMismatch, and n = 2 with nil data yields the
zero diagonal. -/
theorem C8_newDiagCDense_validation_witness :
    (∃ e, NewDiagCDense (-2) none = .error e ∧ e.invalidDimension = true)
    ∧ (∃ e, NewDiagCDense 0 none = .error e ∧ e.invalidDimension = true)
    ∧ NewDiagCDense 3 (some [⟨1, 0⟩]) = .error .ErrShape
    ∧ NewDiagCDense 2 none = .ok ⟨2, 1, List.replicate 2 0⟩ :=
  ⟨C8_newDiagCDense_validation.1 (-2) none (by decide),
    C8_newDiagCDense_validation.1 0 none (by decide),
    C8_newDiagCDense_validation.2.1 3 [⟨1, 0⟩] (by decide) (by decide)
      (by decide),
    C8_newDiagCDense_validation.2.2 2 (by decide)⟩

/-!  ## Diagonal helper lemmas -/

/-- Lemma: `DiagCDense.reuseAsNonZeroed` succeeds on an empty receiver or one of
the exact requested size, yielding a receiver of that size with unit
increment and a covering buffer. -/
theorem diag_reuse_ok (d : DiagCDense) (n : Nat) (hn : 0 < n)
    (hd : d.IsEmpty = true ∨ (d.n = n ∧ d.inc = 1 ∧ n ≤ d.data.length)) :
    ∃ d', d.reuseAsNonZeroed n = .ok d' ∧ d'.n = n ∧ d'.inc = 1
      ∧ n ≤ d'.data.length := by
  rcases hd with hd | ⟨h1, h2, h3⟩
  · refine ⟨⟨n, 1, List.replicate n 0⟩, ?_, rfl, rfl, by simp⟩
    rw [DiagCDense.reuseAsNonZeroed, if_neg (by omega), if_pos hd]
  · refine ⟨d, ?_, h1, h2, h3⟩
    have hne : d.IsEmpty = false := by
      simp only [DiagCDense.IsEmpty, beq_eq_false_iff_ne, ne_eq]
      omega
    rw [DiagCDense.reuseAsNonZeroed, if_neg (by omega), hne]
    simp only [Bool.false_eq_true, if_false]
    rw [if_neg (by omega)]

/-- Any successful `DiagCDense.reuseAsNonZeroed` preserves the empty-state
invariant. -/
theorem diag_reuse_any_ok_inv (d d' : DiagCDense) (r : Nat)
    (h : d.reuseAsNonZeroed r = .ok d') (hinv : d.EmptyInv) : d'.EmptyInv := by
  rw [DiagCDense.reuseAsNonZeroed] at h
  split_ifs at h with h1 h2
  · cases h
    exact ⟨fun hr => absurd hr h1, fun h0 => by cases h0⟩
  · cases h
    exact hinv

/-- Each single diagonal operation preserves the empty-state invariant. -/
theorem applyOp_emptyInv (d : DiagCDense) (op : DiagOp) (h : d.EmptyInv) :
    (d.applyOp op).EmptyInv := by
  cases op with
  | reset =>
      exact ⟨fun _ => rfl, fun _ => rfl⟩
  | zero =>
      exact h
  | setDiag i v =>
      rw [DiagCDense.applyOp, DiagCDense.SetDiag]
      split_ifs
      · exact h
      · exact h
  | reuseAs r =>
      rw [DiagCDense.applyOp]
      cases hr : d.reuseAsNonZeroed r with
      | error e => exact h
      | ok d' => exact diag_reuse_any_ok_inv d d' r hr h
  | diagFrom m =>
      rw [DiagCDense.applyOp]
      cases hr : d.DiagFrom m with
      | error e => exact h
      | ok d' =>
          rw [DiagCDense.DiagFrom] at hr
          cases hq : d.reuseAsNonZeroed (min m.Dims.1 m.Dims.2) with
          | error e =>
              rw [hq] at hr
              cases hr
          | ok d1 =>
              rw [hq] at hr
              have hinv1 := diag_reuse_any_ok_inv d d1 _ hq h
              cases m <;> (cases hr; exact hinv1)

/-!  ## Remaining claims -/

/-- C9: every `DiagCDense` operation preserves the empty-state invariant
(dimension zero iff increment zero); `Reset` clears both together, and
`IsEmpty`, which inspects only the increment, therefore reports dimension
zero after any sequence of operations. -/
theorem C9_diag_empty_state_invariant (d : DiagCDense) (ops : List DiagOp)
    (h : d.EmptyInv) :
    (d.runOps ops).EmptyInv
    ∧ ((d.runOps ops).IsEmpty = true ↔ (d.runOps ops).Dims.1 = 0)
    ∧ d.Reset.n = 0 ∧ d.Reset.inc = 0 := by
  have hrun : ∀ (ops : List DiagOp) (x : DiagCDense), x.EmptyInv →
      (x.runOps ops).EmptyInv := by
    intro ops
    induction ops with
    | nil => exact fun x hx => hx
    | cons op rest ih =>
        intro x hx
        exact ih (x.applyOp op) (applyOp_emptyInv x op hx)
  have hinv := hrun ops d h
  refine ⟨hinv, ?_, rfl, rfl⟩
  rw [DiagCDense.IsEmpty, DiagCDense.Dims]
  simp only [beq_iff_eq]
  exact ⟨fun hz => hinv.2 hz, fun hz => hinv.1 hz⟩

/-- C9 witness: a concrete operation sequence (resize, write, zero, reset,
re-extract) on an initially empty diagonal. -/
theorem C9_diag_empty_state_invariant_witness :
    ((⟨0, 0, []⟩ : DiagCDense).runOps
        [.reuseAs 2, .setDiag 0 ⟨5, 0⟩, .zero, .reset,
          .diagFrom (.dense exA)]).EmptyInv
    ∧ (((⟨0, 0, []⟩ : DiagCDense).runOps
        [.reuseAs 2, .setDiag 0 ⟨5, 0⟩, .zero, .reset,
          .diagFrom (.dense exA)]).IsEmpty = true
        ↔ ((⟨0, 0, []⟩ : DiagCDense).runOps
        [.reuseAs 2, .setDiag 0 ⟨5, 0⟩, .zero, .reset,
          .diagFrom (.dense exA)]).Dims.1 = 0)
    ∧ (⟨0, 0, []⟩ : DiagCDense).Reset.n = 0
    ∧ (⟨0, 0, []⟩ : DiagCDense).Reset.inc = 0 :=
  C9_diag_empty_state_invariant ⟨0, 0, []⟩
    [.reuseAs 2, .setDiag 0 ⟨5, 0⟩, .zero, .reset, .diagFrom (.dense exA)]
    (by decide)

/-- C7: for a source of positive diagonal length and a receiver that is
empty or of the exact size `min(rows, cols)` (with the library's unit
increment and covering buffer), `DiagFrom` succeeds, every diagonal entry
of the result equals the source's, and every off-diagonal read is zero;
the diagonal-source case goes through the kernel vector copy with the same
result. -/
theorem C7_diagFrom_roundtrip (d : DiagCDense) (m : CMatrixV)
    (hn : 0 < min m.Dims.1 m.Dims.2)
    (hd : d.IsEmpty = true ∨ (d.n = min m.Dims.1 m.Dims.2 ∧ d.inc = 1
        ∧ min m.Dims.1 m.Dims.2 ≤ d.data.length)) :
    ∃ d', d.DiagFrom m = .ok d'
      ∧ (∀ i, i < min m.Dims.1 m.Dims.2 → d'.At i i = m.At i i)
      ∧ (∀ i j, i ≠ j → d'.At i j = 0) := by
  obtain ⟨d1, hok, h1, h2, h3⟩ := diag_reuse_ok d _ hn hd
  have hent : ∀ g : Nat → Nat → Cplx, ∀ i, i < min m.Dims.1 m.Dims.2 →
      (DiagCDense.At ⟨d1.n, d1.inc,
        fillLoop (min m.Dims.1 m.Dims.2) 1 d1.inc g d1.data⟩ i i) = g i 0 := by
    intro g i hi
    rw [DiagCDense.At, if_pos rfl]
    show (fillLoop (min m.Dims.1 m.Dims.2) 1 d1.inc g d1.data).getD
      (i * d1.inc) 0 = g i 0
    have := fillLoop_getD (min m.Dims.1 m.Dims.2) 1 d1.inc g d1.data
      (by omega) i 0 hi (by omega) (by rw [h2]; omega)
    simpa using this
  cases m with
  | dense md =>
      refine ⟨⟨d1.n, d1.inc,
          fillLoop (min (CMatrixV.dense md).Dims.1 (CMatrixV.dense md).Dims.2)
            1 d1.inc (fun i _ => (CMatrixV.dense md).At i i) d1.data⟩,
        ?_, fun i hi => hent _ i hi,
        fun i j hij => by rw [DiagCDense.At, if_neg hij]⟩
      rw [DiagCDense.DiagFrom]
      simp only [hok]
  | transD md =>
      refine ⟨⟨d1.n, d1.inc,
          fillLoop (min (CMatrixV.transD md).Dims.1 (CMatrixV.transD md).Dims.2)
            1 d1.inc (fun i _ => (CMatrixV.transD md).At i i) d1.data⟩,
        ?_, fun i hi => hent _ i hi,
        fun i j hij => by rw [DiagCDense.At, if_neg hij]⟩
      rw [DiagCDense.DiagFrom]
      simp only [hok]
  | diag src =>
      refine ⟨⟨d1.n, d1.inc,
          fillLoop (min (CMatrixV.diag src).Dims.1 (CMatrixV.diag src).Dims.2)
            1 d1.inc (fun i _ => bufRead src.data (i * src.inc)) d1.data⟩,
        ?_, ?_, fun i j hij => by rw [DiagCDense.At, if_neg hij]⟩
      · rw [DiagCDense.DiagFrom]
        simp only [hok]
      · intro i hi
        rw [hent _ i hi]
        simp [CMatrixV.At, DiagCDense.At, bufRead]

/-- C7 witness: extracting the diagonal of the 2×2 example matrix into an
empty diagonal receiver. -/
theorem C7_diagFrom_roundtrip_witness :
    ∃ d', DiagCDense.DiagFrom ⟨0, 0, []⟩ (.dense exA) = .ok d'
      ∧ (∀ i, i < min (CMatrixV.dense exA).Dims.1 (CMatrixV.dense exA).Dims.2
          → d'.At i i = (CMatrixV.dense exA).At i i)
      ∧ (∀ i j, i ≠ j → d'.At i j = 0) :=
  C7_diagFrom_roundtrip ⟨0, 0, []⟩ (.dense exA) (by decide)
    (Or.inl rfl)

/-- C1: the self-aliased in-place call `a.Scale(f, a)` leaves `a` holding
exactly the same entries as first scaling into a fresh non-aliased
destination `t` and then copying `t` into `a`; every entry becomes
`a[r][c] * f`, uncorrupted by the storage overlap. -/
theorem C1_scale_self_aliasing (a : CDense) (f : Cplx)
    (hr : 0 < a.rows) (hc : 0 < a.cols) (hwf : a.WF) :
    ∃ t, emptyCDense.Scale f (.dense a) = .ok t
      ∧ a.ScaleSelf f = .ok (a.copyFrom t)
      ∧ ∀ r c, r < a.rows → c < a.cols →
          (a.copyFrom t).entry r c = a.entry r c * f := by
  obtain ⟨hwf1, hwf2⟩ := hwf
  have hne : a.IsEmpty = false := by
    simp only [CDense.IsEmpty, beq_eq_false_iff_ne, ne_eq]
    omega
  have hra : a.reuseAsNonZeroed a.rows a.cols = .ok a := by
    rw [CDense.reuseAsNonZeroed, if_neg (by omega), hne]
    simp only [Bool.false_eq_true, if_false]
    rw [if_neg (by omega)]
  have hre : emptyCDense.reuseAsNonZeroed a.rows a.cols
      = .ok ⟨a.rows, a.cols, a.cols, List.replicate (a.rows * a.cols) 0⟩ := by
    rw [CDense.reuseAsNonZeroed, if_neg (by omega),
      if_pos (show emptyCDense.IsEmpty = true from rfl)]
  refine ⟨⟨a.rows, a.cols, a.cols,
      fillLoop a.rows a.cols a.cols
        (fun r c => bufRead a.data (r * a.stride + c) * f)
        (List.replicate (a.rows * a.cols) 0)⟩, ?_, ?_, ?_⟩
  · simp [CDense.Scale, CMatrixV.Dims, CMatrixV.untrans, hre]
  · simp only [CDense.ScaleSelf, hra]
    rfl
  · intro r c hrr hcc
    simp only [CDense.copyFrom, CDense.entry, bufRead, Nat.min_self]
    rw [fillLoop_getD _ _ _ _ _ hwf1 r c hrr hcc
      (lt_of_lt_of_le (strided_idx_lt r c _ _ hrr (by omega)) hwf2)]
    rw [fillLoop_getD _ _ _ _ _ (le_refl _) r c hrr hcc
      (by rw [List.length_replicate]; exact strided_idx_lt r c _ _ hrr hcc)]

/-- C1 witness: `a.Scale(1i, a)` on the 2×2 example matrix. -/
theorem C1_scale_self_aliasing_witness :
    ∃ t, emptyCDense.Scale ⟨0, 1⟩ (.dense exA) = .ok t
      ∧ exA.ScaleSelf ⟨0, 1⟩ = .ok (exA.copyFrom t)
      ∧ ∀ r c, r < exA.rows → c < exA.cols →
          (exA.copyFrom t).entry r c = exA.entry r c * ⟨0, 1⟩ :=
  C1_scale_self_aliasing exA ⟨0, 1⟩ (by decide) (by decide) (by decide)

/-!  ## Mul helper lemmas -/

/-- Unfolding of `Mul` under a passing inner-dimension check when both
untransposed operands are dense: the result is the kernel call. -/
theorem Mul_eq_gemm (m m' : CDense) (a b : CMatrixV) (ad bd : CDense)
    (hk : a.Dims.2 = b.Dims.1)
    (ha : a.untrans.1 = .inl ad) (hb : b.untrans.1 = .inl bd)
    (hok : m.reuseAsNonZeroed a.Dims.1 b.Dims.2 = .ok m') :
    m.Mul a b = .ok (Gemm a.untrans.2 b.untrans.2 1 ad bd 0 m') := by
  cases a <;> cases b <;>
    simp_all [CDense.Mul, CMatrixV.untrans]

/-- The kernel result cell (i, j): `alpha * Σ_k opA[i,k]*opB[k,j] +
beta * C[i,j]`, for a destination with covering stride and buffer. -/
theorem Gemm_entry (tA tB : Bool) (alpha beta : Cplx) (A B C : CDense)
    (hcs : C.cols ≤ C.stride) (hlen : C.rows * C.stride ≤ C.data.length)
    (i j : Nat) (hi : i < C.rows) (hj : j < C.cols) :
    (Gemm tA tB alpha A B beta C).entry i j
      = alpha * ((List.range (if tA then A.rows else A.cols)).map (fun k =>
          (if tA then A.entry k i else A.entry i k) *
          (if tB then B.entry j k else B.entry k j))).sum
        + beta * C.entry i j := by
  simp only [Gemm, CDense.entry, bufRead]
  rw [fillLoop_getD _ _ _ _ _ hcs i j hi hj
    (lt_of_lt_of_le (strided_idx_lt i j _ _ hi (by omega)) hlen)]

/-- Each cell of the materialized transpose is the transposed cell of the
original. -/
theorem materializeT_entry (a : CDense) (i k : Nat) (hi : i < a.cols)
    (hk : k < a.rows) : a.materializeT.entry i k = a.entry k i := by
  simp only [CDense.materializeT, CDense.entry, bufRead]
  rw [fillLoop_getD _ _ _ _ _ (le_refl _) i k hi hk
    (by rw [List.length_replicate]; exact strided_idx_lt i k _ _ hi hk)]

/-- C4: multiplying through the transpose view (communicated to the kernel
only as a flag) gives, cell for cell, the same result as multiplying by the
explicitly materialized transpose, for any non-aliased destinations that
are empty or of the result shape. -/
theorem C4_mul_transpose_view (a b m1 m2 : CDense)
    (hk : a.rows = b.rows) (hac : 0 < a.cols) (hbc : 0 < b.cols)
    (hm1 : m1.IsEmpty = true ∨ (m1.rows = a.cols ∧ m1.cols = b.cols ∧ m1.WF))
    (hm2 : m2.IsEmpty = true ∨ (m2.rows = a.cols ∧ m2.cols = b.cols ∧ m2.WF)) :
    ∃ d1 d2, m1.Mul (.transD a) (.dense b) = .ok d1
      ∧ m2.Mul (.dense a.materializeT) (.dense b) = .ok d2
      ∧ ∀ i j, i < a.cols → j < b.cols → d1.entry i j = d2.entry i j := by
  obtain ⟨m1', hok1, hr1, hc1, hs1, hl1, -, -⟩ :=
    reuse_ok m1 a.cols b.cols hac hbc hm1
  obtain ⟨m2', hok2, hr2, hc2, hs2, hl2, -, -⟩ :=
    reuse_ok m2 a.cols b.cols hac hbc hm2
  refine ⟨Gemm true false 1 a b 0 m1',
    Gemm false false 1 a.materializeT b 0 m2', ?_, ?_, ?_⟩
  · exact Mul_eq_gemm m1 m1' (.transD a) (.dense b) a b hk rfl rfl hok1
  · exact Mul_eq_gemm m2 m2' (.dense a.materializeT) (.dense b)
      a.materializeT b hk rfl rfl hok2
  · intro i j hi hj
    rw [Gemm_entry true false 1 0 a b m1' hs1 (by rw [hr1]; exact hl1)
      i j (by omega) (by omega)]
    rw [Gemm_entry false false 1 0 a.materializeT b m2' hs2
      (by rw [hr2]; exact hl2) i j (by omega) (by omega)]
    simp only [if_true, if_false, zero_mul, add_zero, one_mul]
    have hKT : a.materializeT.cols = a.rows := rfl
    rw [hKT]
    congr 1
    refine List.map_congr_left ?_
    intro k hkmem
    rw [List.mem_range] at hkmem
    rw [materializeT_entry a i k hi hkmem]
    simp

/-- C4 witness: the transpose-view product at the two example matrices
(2 rows each) with fresh empty destinations. -/
theorem C4_mul_transpose_view_witness :
    ∃ d1 d2, emptyCDense.Mul (.transD exA) (.dense exB) = .ok d1
      ∧ emptyCDense.Mul (.dense exA.materializeT) (.dense exB) = .ok d2
      ∧ ∀ i j, i < exA.cols → j < exB.cols → d1.entry i j = d2.entry i j :=
  C4_mul_transpose_view exA exB emptyCDense emptyCDense rfl
    (by decide) (by decide) (Or.inl rfl) (Or.inl rfl)

/-- C10: when, after untransposing, an operand of `Mul` is not a plain
dense matrix, the call equals plain `reuseAsNonZeroed`: it returns without
panicking, computes no product, leaves a non-empty destination entirely
untouched and an empty one merely resized. -/
theorem C10_mul_nondense_noop (m : CDense) (a b : CMatrixV)
    (hk : a.Dims.2 = b.Dims.1) (hr : 0 < a.Dims.1) (hc : 0 < b.Dims.2)
    (hnd : a.untrans.1.isLeft = false ∨ b.untrans.1.isLeft = false)
    (hm : m.IsEmpty = true ∨ (m.rows = a.Dims.1 ∧ m.cols = b.Dims.2 ∧ m.WF)) :
    m.Mul a b = m.reuseAsNonZeroed a.Dims.1 b.Dims.2
    ∧ ∃ d, m.Mul a b = .ok d
      ∧ (m.IsEmpty = false → d = m)
      ∧ (m.IsEmpty = true →
          d = ⟨a.Dims.1, b.Dims.2, b.Dims.2,
            List.replicate (a.Dims.1 * b.Dims.2) 0⟩) := by
  obtain ⟨m', hok, hmr, hmc, -, -, hne', hem'⟩ :=
    reuse_ok m a.Dims.1 b.Dims.2 hr hc hm
  have heq : m.Mul a b = .ok m' := by
    cases a <;> cases b <;>
      simp_all [CDense.Mul, CMatrixV.untrans, Sum.isLeft]
  refine ⟨?_, m', heq, hne', hem'⟩
  rw [heq, hok]

/-- C10 witness: a diagonal first operand with a dense second operand and a
non-empty correctly-sized destination, which `Mul` leaves untouched. -/
theorem C10_mul_nondense_noop_witness :
    (CDense.Mul ⟨2, 2, 2, [⟨7, 0⟩, ⟨8, 0⟩, ⟨9, 0⟩, ⟨4, 0⟩]⟩
        (.diag ⟨2, 1, [⟨1, 0⟩, ⟨2, 0⟩]⟩) (.dense exB)
      = CDense.reuseAsNonZeroed ⟨2, 2, 2, [⟨7, 0⟩, ⟨8, 0⟩, ⟨9, 0⟩, ⟨4, 0⟩]⟩
        (CMatrixV.diag ⟨2, 1, [⟨1, 0⟩, ⟨2, 0⟩]⟩).Dims.1
        (CMatrixV.dense exB).Dims.2)
    ∧ ∃ d, CDense.Mul ⟨2, 2, 2, [⟨7, 0⟩, ⟨8, 0⟩, ⟨9, 0⟩, ⟨4, 0⟩]⟩
        (.diag ⟨2, 1, [⟨1, 0⟩, ⟨2, 0⟩]⟩) (.dense exB) = .ok d
      ∧ ((⟨2, 2, 2, [⟨7, 0⟩, ⟨8, 0⟩, ⟨9, 0⟩, ⟨4, 0⟩]⟩ : CDense).IsEmpty = false
          → d = ⟨2, 2, 2, [⟨7, 0⟩, ⟨8, 0⟩, ⟨9, 0⟩, ⟨4, 0⟩]⟩)
      ∧ ((⟨2, 2, 2, [⟨7, 0⟩, ⟨8, 0⟩, ⟨9, 0⟩, ⟨4, 0⟩]⟩ : CDense).IsEmpty = true
          → d = ⟨(CMatrixV.diag ⟨2, 1, [⟨1, 0⟩, ⟨2, 0⟩]⟩).Dims.1,
              (CMatrixV.dense exB).Dims.2, (CMatrixV.dense exB).Dims.2,
              List.replicate ((CMatrixV.diag ⟨2, 1, [⟨1, 0⟩, ⟨2, 0⟩]⟩).Dims.1
                * (CMatrixV.dense exB).Dims.2) 0⟩) :=
  C10_mul_nondense_noop ⟨2, 2, 2, [⟨7, 0⟩, ⟨8, 0⟩, ⟨9, 0⟩, ⟨4, 0⟩]⟩
    (.diag ⟨2, 1, [⟨1, 0⟩, ⟨2, 0⟩]⟩) (.dense exB) rfl (by decide) (by decide)
    (Or.inl rfl) (Or.inr (by decide))

end GonumC
